import Mathlib

/-!
Verification of the bounded cache and client-constructor layer of the
repository (source: `src/i.py`).  The `Cache` class and the storage /
credential / concurrency set-up of `Client.__init__` are embedded as pure
Lean functions; Python `dict` insertion order is modelled by association
lists, Python integers by `Int`/`Nat`, and Python optional arguments by
`Option`.
-/

namespace Spec2Proof

/-- Embedding of the `Cache` class of `src/i.py`: `capacity` is the Python
integer passed to `__init__` (no validation happens there), `store` is the
insertion-ordered `dict` as an association list (oldest first). -/
structure Cache (K V : Type) where
  capacity : Int
  store : List (K × V)

/-- `Cache.__init__`: stores the capacity unchecked and starts with an empty
dict. -/
def Cache.init (K V : Type) (capacity : Int) : Cache K V :=
  ⟨capacity, []⟩

/-- Python `dict.get(key, None)` on an insertion-ordered association list
whose keys are unique: first (only) binding of the key, else `none`. -/
def lookupStore {K V : Type} [DecidableEq K] : List (K × V) → K → Option V
  | [], _ => none
  | (k0, v) :: t, k => if k0 = k then some v else lookupStore t k

/-- `Cache.__getitem__`: `self.store.get(key, None)`. -/
def Cache.getItem {K V : Type} [DecidableEq K] (c : Cache K V) (k : K) : Option V :=
  lookupStore c.store k

/-- First half of `Cache.__setitem__`:
`if key in self.store: del self.store[key]` — a dict holds at most one
binding per key, so deletion is removal of the (unique) pair with that
key. -/
def removeKey {K V : Type} [DecidableEq K] (store : List (K × V)) (k : K) : List (K × V) :=
  if store.any (fun p => p.1 = k) then store.filter (fun p => p.1 ≠ k) else store

/-- Second half of `Cache.__setitem__`: after the append, if
`len(self.store) > self.capacity` then
`for _ in range(self.capacity // 2 + 1): del self.store[next(iter(self.store))]`
deletes the first `self.capacity // 2 + 1` entries in insertion order.
Python `range` of a non-positive bound is empty, hence `Int.toNat`, and
`//` is floor division, hence `Int.fdiv`. -/
def evictOverflow {K V : Type} (capacity : Int) (store : List (K × V)) : List (K × V) :=
  if capacity < (store.length : Int)
  then store.drop (Int.fdiv capacity 2 + 1).toNat else store

/-- `Cache.__setitem__`: remove-then-append followed by the overflow
check. -/
def Cache.setItem {K V : Type} [DecidableEq K] (c : Cache K V) (k : K) (v : V) : Cache K V :=
  ⟨c.capacity, evictOverflow c.capacity (removeKey c.store k ++ [(k, v)])⟩

/-- `len(self.store)`. -/
def Cache.size {K V : Type} (c : Cache K V) : Nat :=
  c.store.length

/-- Keys of the cache in insertion order. -/
def Cache.keys {K V : Type} (c : Cache K V) : List K :=
  c.store.map Prod.fst

/-- One external operation on the cache: `put` (`__setitem__`) or `get`
(`__getitem__`, which does not mutate). -/
inductive CacheOp (K V : Type) where
  | put : K → V → CacheOp K V
  | get : K → CacheOp K V
deriving DecidableEq

/-- Effect of one operation on the cache state (`get` reads only). -/
def Cache.step {K V : Type} [DecidableEq K] (c : Cache K V) : CacheOp K V → Cache K V
  | CacheOp.put k v => c.setItem k v
  | CacheOp.get _ => c

/-- Run a sequence of operations left to right. -/
def Cache.run {K V : Type} [DecidableEq K] (c : Cache K V) (ops : List (CacheOp K V)) : Cache K V :=
  ops.foldl Cache.step c

/-! Arithmetic facts about the bulk-eviction count `(capacity // 2 + 1)`. -/

theorem evictCount_ofNat (C : Nat) : (Int.fdiv (C : Int) 2 + 1).toNat = C / 2 + 1 := by
  cases C with
  | zero => rfl
  | succ m => rfl

theorem evictCount_negSucc (m : Nat) : (Int.fdiv (Int.negSucc m) 2 + 1).toNat = 0 := by
  have h : Int.fdiv (Int.negSucc m) 2 = Int.negSucc (m / 2) := rfl
  rw [h, Int.negSucc_eq]
  omega

/-- After `__setitem__` the capacity field is unchanged. -/
theorem Cache.capacity_setItem {K V : Type} [DecidableEq K] (c : Cache K V) (k : K) (v : V) :
    (c.setItem k v).capacity = c.capacity := rfl

/-- Removing a key never lengthens the store. -/
theorem removeKey_length_le {K V : Type} [DecidableEq K] (store : List (K × V)) (k : K) :
    (removeKey store k).length ≤ store.length := by
  unfold removeKey; split
  · exact List.length_filter_le _ _
  · exact le_refl _

/-- If the store is at most one over a positive capacity, the overflow
check brings it back within the capacity. -/
theorem evictOverflow_length_le {K V : Type} (cap : Int) (hcap : 1 ≤ cap)
    (store : List (K × V)) (h : (store.length : Int) ≤ cap + 1) :
    ((evictOverflow cap store).length : Int) ≤ cap := by
  obtain ⟨C, rfl⟩ : ∃ C : Nat, cap = (C : Int) :=
    ⟨cap.toNat, (Int.toNat_of_nonneg (by omega)).symm⟩
  unfold evictOverflow
  split
  · rw [List.length_drop, evictCount_ofNat]
    omega
  · omega

/-- Size bound: if the store fits the (positive) capacity before a put, it
fits after the put. -/
theorem Cache.setItem_length_le {K V : Type} [DecidableEq K] (c : Cache K V) (k : K) (v : V)
    (hC : 1 ≤ c.capacity) (hlen : (c.store.length : Int) ≤ c.capacity) :
    (((c.setItem k v).store.length : Int)) ≤ c.capacity := by
  have h1 : (removeKey c.store k).length ≤ c.store.length := removeKey_length_le _ _
  have h2 : (((removeKey c.store k ++ [(k, v)]).length : Int)) ≤ c.capacity + 1 := by
    rw [List.length_append]
    simp only [List.length_cons, List.length_nil]
    push_cast
    omega
  exact evictOverflow_length_le c.capacity hC _ h2

/-- A `get` or `put` step never changes the capacity field. -/
theorem Cache.capacity_step {K V : Type} [DecidableEq K] (c : Cache K V) (op : CacheOp K V) :
    (c.step op).capacity = c.capacity := by
  cases op <;> rfl

/-- Running any operation sequence never changes the capacity field. -/
theorem Cache.capacity_run {K V : Type} [DecidableEq K] (c : Cache K V)
    (ops : List (CacheOp K V)) : (c.run ops).capacity = c.capacity := by
  induction ops generalizing c with
  | nil => rfl
  | cons op ops ih =>
    have h : Cache.run c (op :: ops) = Cache.run (c.step op) ops := rfl
    rw [h, ih, Cache.capacity_step]

/-- The size bound is preserved by every operation sequence. -/
theorem Cache.run_length_le {K V : Type} [DecidableEq K] (ops : List (CacheOp K V))
    (c : Cache K V) (hC : 1 ≤ c.capacity) (hlen : (c.store.length : Int) ≤ c.capacity) :
    ((c.run ops).store.length : Int) ≤ c.capacity := by
  induction ops generalizing c with
  | nil => exact hlen
  | cons op ops ih =>
    have hrun : Cache.run c (op :: ops) = Cache.run (c.step op) ops := rfl
    rw [hrun]
    have hcap : (c.step op).capacity = c.capacity := Cache.capacity_step c op
    have hstep : ((c.step op).store.length : Int) ≤ (c.step op).capacity := by
      rw [hcap]
      cases op with
      | put k v => exact Cache.setItem_length_le c k v hC hlen
      | get k => exact hlen
    have := ih (c.step op) (by rw [hcap]; exact hC) hstep
    rwa [hcap] at this

/-- C1: for every positive capacity `C` and every sequence of put/get
operations starting from the empty cache, after any further put returns,
the cache size is at most `C`. -/
theorem cache_size_le_capacity_after_put (C : Int) (hC : 1 ≤ C)
    (ops : List (CacheOp Nat Nat)) (k v : Nat) :
    ((((Cache.init Nat Nat C).run ops).setItem k v).size : Int) ≤ C := by
  have hcap : ((Cache.init Nat Nat C).run ops).capacity = C :=
    Cache.capacity_run _ _
  have hlen : ((((Cache.init Nat Nat C).run ops).store.length : Int)) ≤ C :=
    Cache.run_length_le ops (Cache.init Nat Nat C) hC (by simp [Cache.init]; omega)
  have h := Cache.setItem_length_le ((Cache.init Nat Nat C).run ops) k v
    (by rw [hcap]; exact hC) (by rw [hcap]; exact hlen)
  rw [hcap] at h
  exact h

/-- Witness for C1 at capacity 2 and a concrete operation sequence. -/
theorem cache_size_le_capacity_after_put_witness :
    ((((Cache.init Nat Nat 2).run
      [CacheOp.put 1 1, CacheOp.put 2 2, CacheOp.put 3 3]).setItem 4 4).size : Int) ≤ 2 :=
  cache_size_le_capacity_after_put 2 (by decide)
    [CacheOp.put 1 1, CacheOp.put 2 2, CacheOp.put 3 3] 4 4

/-! Lookup and key-uniqueness lemmas for the association-list model of the
Python dict. -/

theorem lookupStore_eq_none_of_not_mem {K V : Type} [DecidableEq K]
    (l : List (K × V)) (k : K) (h : ∀ p ∈ l, p.1 ≠ k) : lookupStore l k = none := by
  induction l with
  | nil => rfl
  | cons p t ih =>
    obtain ⟨k0, v0⟩ := p
    have hk0 : k0 ≠ k := h (k0, v0) (List.mem_cons_self _ _)
    simp only [lookupStore, if_neg hk0]
    exact ih (fun q hq => h q (List.mem_cons_of_mem _ hq))

theorem lookupStore_append_last {K V : Type} [DecidableEq K]
    (l : List (K × V)) (k : K) (v : V) (h : ∀ p ∈ l, p.1 ≠ k) :
    lookupStore (l ++ [(k, v)]) k = some v := by
  induction l with
  | nil => simp [lookupStore]
  | cons p t ih =>
    obtain ⟨k0, v0⟩ := p
    have hk0 : k0 ≠ k := h (k0, v0) (List.mem_cons_self _ _)
    simp only [List.cons_append, lookupStore, if_neg hk0]
    exact ih (fun q hq => h q (List.mem_cons_of_mem _ hq))

theorem mem_of_lookupStore_eq_some {K V : Type} [DecidableEq K]
    {l : List (K × V)} {k : K} {v : V} (h : lookupStore l k = some v) : (k, v) ∈ l := by
  induction l with
  | nil => simp [lookupStore] at h
  | cons p t ih =>
    obtain ⟨k0, v0⟩ := p
    by_cases hk : k0 = k
    · subst hk
      simp only [lookupStore, if_pos rfl] at h
      injection h with h1
      subst h1
      exact List.mem_cons_self _ _
    · simp only [lookupStore, if_neg hk] at h
      exact List.mem_cons_of_mem _ (ih h)

theorem lookupStore_eq_some_of_mem {K V : Type} [DecidableEq K]
    {l : List (K × V)} {k : K} {v : V} (hnd : (l.map Prod.fst).Nodup)
    (h : (k, v) ∈ l) : lookupStore l k = some v := by
  induction l with
  | nil => cases h
  | cons p t ih =>
    obtain ⟨k0, v0⟩ := p
    rw [List.map_cons] at hnd
    obtain ⟨hnotin, hnd2⟩ := List.nodup_cons.mp hnd
    rcases List.mem_cons.mp h with heq | hmem
    · cases heq
      simp [lookupStore]
    · have hk : k0 ≠ k := by
        intro he
        subst he
        exact hnotin (List.mem_map.mpr ⟨(k0, v), hmem, rfl⟩)
      simp only [lookupStore, if_neg hk]
      exact ih hnd2 hmem

theorem nodup_keys_val_unique {K V : Type} [DecidableEq K]
    {l : List (K × V)} {k : K} {u w : V} (hnd : (l.map Prod.fst).Nodup)
    (h1 : (k, u) ∈ l) (h2 : (k, w) ∈ l) : u = w :=
  Option.some.inj
    ((lookupStore_eq_some_of_mem hnd h1).symm.trans (lookupStore_eq_some_of_mem hnd h2))

/-! Facts about `removeKey` and `evictOverflow`. -/

theorem removeKey_not_key {K V : Type} [DecidableEq K] (store : List (K × V)) (k : K) :
    ∀ p ∈ removeKey store k, p.1 ≠ k := by
  intro p hp
  unfold removeKey at hp
  split at hp
  · exact of_decide_eq_true (List.mem_filter.mp hp).2
  · rename_i h
    intro hpk
    exact h (List.any_eq_true.mpr ⟨p, hp, decide_eq_true hpk⟩)

theorem removeKey_sublist {K V : Type} [DecidableEq K] (store : List (K × V)) (k : K) :
    List.Sublist (removeKey store k) store := by
  unfold removeKey
  split
  · exact List.filter_sublist _
  · exact List.Sublist.refl _

theorem removeKey_mem_of_ne {K V : Type} [DecidableEq K] {store : List (K × V)}
    {k : K} {p : K × V} (hne : p.1 ≠ k) (hp : p ∈ store) : p ∈ removeKey store k := by
  unfold removeKey
  split
  · exact List.mem_filter.mpr ⟨hp, decide_eq_true hne⟩
  · exact hp

theorem removeKey_of_not_mem {K V : Type} [DecidableEq K] (store : List (K × V)) (k : K)
    (h : k ∉ store.map Prod.fst) : removeKey store k = store := by
  unfold removeKey
  rw [if_neg]
  intro hany
  obtain ⟨p, hp, hpk⟩ := List.any_eq_true.mp hany
  exact h (List.mem_map.mpr ⟨p, hp, of_decide_eq_true hpk⟩)

theorem evictOverflow_sublist {K V : Type} (cap : Int) (store : List (K × V)) :
    List.Sublist (evictOverflow cap store) store := by
  unfold evictOverflow
  split
  · exact List.drop_sublist _ _
  · exact List.Sublist.refl _

/-- Putting a key preserves key uniqueness of the store. -/
theorem Cache.keys_nodup_setItem {K V : Type} [DecidableEq K] (c : Cache K V)
    (hnd : c.keys.Nodup) (k : K) (v : V) : (c.setItem k v).keys.Nodup := by
  have h1 : ((removeKey c.store k).map Prod.fst).Nodup :=
    ((removeKey_sublist c.store k).map Prod.fst).nodup hnd
  have h2 : (((removeKey c.store k) ++ [(k, v)]).map Prod.fst).Nodup := by
    rw [List.map_append]
    simp only [List.map_cons, List.map_nil]
    refine List.Nodup.append h1 (List.nodup_singleton k) ?_
    intro a ha hb
    rw [List.mem_singleton] at hb
    subst hb
    obtain ⟨p, hp, hpk⟩ := List.mem_map.mp ha
    exact removeKey_not_key c.store _ p hp hpk
  exact (((evictOverflow_sublist c.capacity _).map Prod.fst).nodup) h2

/-- C2: on a full cache (exactly `C` entries, positive capacity `C`), a put
of a fresh key bulk-evicts exactly the `C / 2 + 1` oldest entries in
insertion order, keeps the remaining entries in order, and appends the new
binding. -/
theorem cache_bulk_eviction (C : Nat) (hC : 1 ≤ C) (c : Cache Nat Nat)
    (hcap : c.capacity = (C : Int)) (hlen : c.store.length = C)
    (k : Nat) (hk : k ∉ c.keys) (v : Nat) :
    (c.setItem k v).store = c.store.drop (C / 2 + 1) ++ [(k, v)] := by
  have h1 : removeKey c.store k = c.store := removeKey_of_not_mem _ _ hk
  show evictOverflow c.capacity (removeKey c.store k ++ [(k, v)]) = _
  rw [h1, hcap]
  have hcond : ((C : Int)) < (((c.store ++ [(k, v)]).length : Nat) : Int) := by
    rw [List.length_append, hlen]
    simp only [List.length_cons, List.length_nil]
    push_cast
    omega
  unfold evictOverflow
  rw [if_pos hcond, evictCount_ofNat]
  exact List.drop_append_of_le_length (by omega)

/-- Witness for C2: capacity 3, three entries, fresh key 7; the two oldest
entries are evicted and key 7 is appended. -/
theorem cache_bulk_eviction_witness :
    ((Cache.mk 3 [(0, 0), (1, 1), (2, 2)] : Cache Nat Nat).setItem 7 7).store
      = ([(0, 0), (1, 1), (2, 2)] : List (Nat × Nat)).drop (3 / 2 + 1) ++ [(7, 7)] :=
  cache_bulk_eviction 3 (by decide) (Cache.mk 3 [(0, 0), (1, 1), (2, 2)]) rfl rfl
    7 (by decide) 7

/-- Filtering out a present key from a store with unique keys removes
exactly one entry. -/
theorem length_filter_key {K V : Type} [DecidableEq K] (l : List (K × V)) (k : K)
    (hnd : (l.map Prod.fst).Nodup) (hk : k ∈ l.map Prod.fst) :
    (l.filter (fun p => p.1 ≠ k)).length + 1 = l.length := by
  induction l with
  | nil => cases hk
  | cons p t ih =>
    obtain ⟨k0, v0⟩ := p
    rw [List.map_cons] at hnd hk
    obtain ⟨hnotin, hnd2⟩ := List.nodup_cons.mp hnd
    by_cases hkk : k0 = k
    · subst hkk
      have hneg : ¬ ((fun p : K × V => decide (p.1 ≠ k0)) (k0, v0) = true) := by simp
      rw [List.filter_cons_of_neg (p := fun q : K × V => decide (q.1 ≠ k0))
        (a := (k0, v0)) (l := t) hneg]
      have hfe : t.filter (fun p => p.1 ≠ k0) = t :=
        List.filter_eq_self.mpr (fun q hq => decide_eq_true
          (fun he => hnotin (List.mem_map.mpr ⟨q, hq, he⟩)))
      rw [hfe]
      simp
    · rcases List.mem_cons.mp hk with h | h
      · exact absurd h.symm hkk
      · have hpos : ((fun p : K × V => decide (p.1 ≠ k)) (k0, v0) = true) :=
          decide_eq_true hkk
        rw [List.filter_cons_of_pos (p := fun q : K × V => decide (q.1 ≠ k))
          (a := (k0, v0)) (l := t) hpos]
        have := ih hnd2 h
        simp only [List.length_cons]
        omega

/-- C3: a put of a key already present removes the old binding, appends the
new one at the most-recently-inserted position, and leaves the size
unchanged — no eviction is triggered. -/
theorem cache_reinsert (c : Cache Nat Nat) (hnd : c.keys.Nodup)
    (hlen : (c.store.length : Int) ≤ c.capacity) (k : Nat) (hk : k ∈ c.keys) (v : Nat) :
    (c.setItem k v).store = c.store.filter (fun p => p.1 ≠ k) ++ [(k, v)] ∧
    (c.setItem k v).size = c.size := by
  have hrm : removeKey c.store k = c.store.filter (fun p => p.1 ≠ k) := by
    unfold removeKey
    rw [if_pos]
    obtain ⟨p, hp, hpk⟩ := List.mem_map.mp hk
    exact List.any_eq_true.mpr ⟨p, hp, decide_eq_true hpk⟩
  have hflen : (c.store.filter (fun p => p.1 ≠ k)).length + 1 = c.store.length :=
    length_filter_key _ _ hnd hk
  have hnoev : evictOverflow c.capacity (c.store.filter (fun p => p.1 ≠ k) ++ [(k, v)])
      = c.store.filter (fun p => p.1 ≠ k) ++ [(k, v)] := by
    unfold evictOverflow
    rw [if_neg]
    rw [List.length_append]
    simp only [List.length_cons, List.length_nil]
    push_cast
    omega
  constructor
  · show evictOverflow c.capacity (removeKey c.store k ++ [(k, v)]) = _
    rw [hrm, hnoev]
  · show (evictOverflow c.capacity (removeKey c.store k ++ [(k, v)])).length
      = c.store.length
    rw [hrm, hnoev, List.length_append]
    simp only [List.length_cons, List.length_nil]
    omega

/-- Witness for C3: re-inserting key 1 in a cache of size 2 and capacity 3
moves it to the end with the new value and keeps the size at 2. -/
theorem cache_reinsert_witness :
    ((Cache.mk 3 [(1, 10), (2, 20)] : Cache Nat Nat).setItem 1 99).store
        = ([(1, 10), (2, 20)] : List (Nat × Nat)).filter (fun p => p.1 ≠ 1) ++ [(1, 99)] ∧
      ((Cache.mk 3 [(1, 10), (2, 20)] : Cache Nat Nat).setItem 1 99).size
        = (Cache.mk 3 [(1, 10), (2, 20)] : Cache Nat Nat).size :=
  cache_reinsert (Cache.mk 3 [(1, 10), (2, 20)]) (by decide) (by decide) 1 (by decide) 99

/-- C9: `__getitem__` is a total function into `Option` — looking up a key
that is absent returns the distinguished value `none` (Python `None`)
rather than signalling an error. -/
theorem cache_get_absent (c : Cache Nat Nat) (k : Nat) (h : k ∉ c.keys) :
    c.getItem k = none :=
  lookupStore_eq_none_of_not_mem c.store k
    (fun p hp hpk => h (List.mem_map.mpr ⟨p, hp, hpk⟩))

/-- Witness for C9: key 2 was never inserted; `get` returns `none`. -/
theorem cache_get_absent_witness :
    (Cache.mk 5 [(1, 1)] : Cache Nat Nat).getItem 2 = none :=
  cache_get_absent (Cache.mk 5 [(1, 1)]) 2 (by decide)

/-- A put makes `get` on the inserted key return the inserted value:
the new binding sits at the end and survives the bulk eviction whenever
the capacity is positive and the size bound held before the put. -/
theorem Cache.getItem_setItem_self {K V : Type} [DecidableEq K] (c : Cache K V)
    (k : K) (v : V) (hC : 1 ≤ c.capacity)
    (hlen : (c.store.length : Int) ≤ c.capacity) :
    (c.setItem k v).getItem k = some v := by
  have hnk : ∀ p ∈ removeKey c.store k, p.1 ≠ k := removeKey_not_key _ _
  have hs1 : (removeKey c.store k).length ≤ c.store.length := removeKey_length_le _ _
  obtain ⟨C, hcap⟩ : ∃ C : Nat, c.capacity = (C : Int) :=
    ⟨c.capacity.toNat, (Int.toNat_of_nonneg (by omega)).symm⟩
  show lookupStore (evictOverflow c.capacity (removeKey c.store k ++ [(k, v)])) k = some v
  unfold evictOverflow
  split
  · rename_i hcond
    rw [hcap, evictCount_ofNat]
    have hC1 : 1 ≤ C := by
      rw [hcap] at hC
      exact_mod_cast hC
    have hlen1 : c.store.length ≤ C := by
      rw [hcap] at hlen
      exact_mod_cast hlen
    have hcond1 : C < (removeKey c.store k ++ [(k, v)]).length := by
      rw [hcap] at hcond
      exact_mod_cast hcond
    rw [List.length_append] at hcond1
    simp only [List.length_cons, List.length_nil] at hcond1
    have hn : C / 2 + 1 ≤ (removeKey c.store k).length := by omega
    rw [List.drop_append_of_le_length hn]
    exact lookupStore_append_last _ _ _
      (fun p hp => hnk p ((List.drop_sublist _ _).subset hp))
  · exact lookupStore_append_last _ _ _ hnk

/-- The pre-eviction store of a put has unique keys whenever the original
store does. -/
theorem nodup_keys_removeKey_append {K V : Type} [DecidableEq K]
    (store : List (K × V)) (k : K) (v : V) (hnd : (store.map Prod.fst).Nodup) :
    ((removeKey store k ++ [(k, v)]).map Prod.fst).Nodup := by
  have h1 : ((removeKey store k).map Prod.fst).Nodup :=
    ((removeKey_sublist store k).map Prod.fst).nodup hnd
  rw [List.map_append]
  simp only [List.map_cons, List.map_nil]
  refine List.Nodup.append h1 (List.nodup_singleton k) ?_
  intro a ha hb
  rw [List.mem_singleton] at hb
  subst hb
  obtain ⟨p, hp, hpk⟩ := List.mem_map.mp ha
  exact removeKey_not_key store _ p hp hpk

/-- Any key present after a put is either the inserted key or was present
before. -/
theorem Cache.mem_keys_setItem {K V : Type} [DecidableEq K] {c : Cache K V}
    {k k0 : K} {v : V} (h : k ∈ (c.setItem k0 v).keys) : k = k0 ∨ k ∈ c.keys := by
  obtain ⟨p, hp, hpk⟩ := List.mem_map.mp h
  have hp2 : p ∈ removeKey c.store k0 ++ [(k0, v)] :=
    (evictOverflow_sublist _ _).subset hp
  rcases List.mem_append.mp hp2 with h1 | h1
  · exact Or.inr (List.mem_map.mpr ⟨p, (removeKey_sublist _ _).subset h1, hpk⟩)
  · rw [List.mem_singleton] at h1
    subst h1
    exact Or.inl hpk.symm

/-- A key that is absent and never put stays absent through any operation
sequence. -/
theorem Cache.not_mem_keys_run {K V : Type} [DecidableEq K] (ops : List (CacheOp K V)) :
    ∀ (c : Cache K V) (k : K), (∀ w : V, CacheOp.put k w ∉ ops) → k ∉ c.keys →
    k ∉ (c.run ops).keys := by
  induction ops with
  | nil => intro c k _ hk; exact hk
  | cons op ops ih =>
    intro c k hput hk
    have hput2 : ∀ w : V, CacheOp.put k w ∉ ops :=
      fun w hw => hput w (List.mem_cons_of_mem _ hw)
    have hstep : k ∉ (c.step op).keys := by
      cases op with
      | get k0 => exact hk
      | put k0 v0 =>
        intro hmem
        rcases Cache.mem_keys_setItem hmem with rfl | h
        · exact hput v0 (List.mem_cons_self _ _)
        · exact hk h
    exact ih (c.step op) k hput2 hstep

/-- A put of a different key preserves the value `get` returns for a key
that is still present afterwards. -/
theorem Cache.getItem_setItem_other {K V : Type} [DecidableEq K] {c : Cache K V}
    {k k0 : K} {v v0 : V} (hnd : c.keys.Nodup) (hne : k ≠ k0)
    (hget : c.getItem k = some v) (hmem : k ∈ (c.setItem k0 v0).keys) :
    (c.setItem k0 v0).getItem k = some v := by
  have hmem0 : (k, v) ∈ c.store := mem_of_lookupStore_eq_some hget
  have h2 : (k, v) ∈ removeKey c.store k0 ++ [(k0, v0)] :=
    List.mem_append.mpr (Or.inl (removeKey_mem_of_ne hne hmem0))
  have hnd2 : ((removeKey c.store k0 ++ [(k0, v0)]).map Prod.fst).Nodup :=
    nodup_keys_removeKey_append c.store k0 v0 hnd
  obtain ⟨p, hp, hpk⟩ := List.mem_map.mp hmem
  obtain ⟨k1, w⟩ := p
  cases hpk
  have hp2 : (k1, w) ∈ removeKey c.store k0 ++ [(k0, v0)] :=
    (evictOverflow_sublist _ _).subset hp
  have hvw : v = w := nodup_keys_val_unique hnd2 h2 hp2
  have hnd3 : ((c.setItem k0 v0).store.map Prod.fst).Nodup :=
    Cache.keys_nodup_setItem c hnd k0 v0
  show lookupStore (c.setItem k0 v0).store k1 = some v
  rw [hvw]
  exact lookupStore_eq_some_of_mem hnd3 hp

/-- The value a present key maps to is preserved by any operation sequence
that never puts that key, for as long as the key stays present. -/
theorem Cache.run_getItem_preserved {K V : Type} [DecidableEq K]
    (ops : List (CacheOp K V)) :
    ∀ (c : Cache K V) (k : K) (v : V), 1 ≤ c.capacity → c.keys.Nodup →
    (c.store.length : Int) ≤ c.capacity → c.getItem k = some v →
    (∀ w : V, CacheOp.put k w ∉ ops) → k ∈ (c.run ops).keys →
    (c.run ops).getItem k = some v := by
  induction ops with
  | nil => intro c k v _ _ _ hget _ _; exact hget
  | cons op ops ih =>
    intro c k v hC hnd hlen hget hput hmem
    have hput2 : ∀ w : V, CacheOp.put k w ∉ ops :=
      fun w hw => hput w (List.mem_cons_of_mem _ hw)
    cases op with
    | get k0 => exact ih c k v hC hnd hlen hget hput2 hmem
    | put k0 v0 =>
      have hne : k ≠ k0 := by
        intro he
        subst he
        exact hput v0 (List.mem_cons_self _ _)
      have hmem1 : k ∈ (c.setItem k0 v0).keys := by
        by_contra habs
        exact Cache.not_mem_keys_run ops (c.setItem k0 v0) k hput2 habs hmem
      have hget2 : (c.setItem k0 v0).getItem k = some v :=
        Cache.getItem_setItem_other hnd hne hget hmem1
      exact ih (c.setItem k0 v0) k v
        (by rw [Cache.capacity_setItem]; exact hC)
        (Cache.keys_nodup_setItem c hnd k0 v0)
        (by rw [Cache.capacity_setItem]; exact Cache.setItem_length_le c k0 v0 hC hlen)
        hget2 hput2 hmem

/-- C4: immediately after `put(k, v)` on a well-formed cache with positive
capacity, `get(k)` returns `v`, and it keeps returning `v` after any
further operations that do not put `k`, for as long as `k` has not been
evicted. -/
theorem cache_get_after_put (c : Cache Nat Nat) (hC : 1 ≤ c.capacity)
    (hnd : c.keys.Nodup) (hlen : (c.store.length : Int) ≤ c.capacity) (k v : Nat) :
    (c.setItem k v).getItem k = some v ∧
    ∀ ops : List (CacheOp Nat Nat), (∀ w : Nat, CacheOp.put k w ∉ ops) →
      k ∈ ((c.setItem k v).run ops).keys →
      ((c.setItem k v).run ops).getItem k = some v := by
  have hself := Cache.getItem_setItem_self c k v hC hlen
  refine ⟨hself, fun ops hput hmem => ?_⟩
  exact Cache.run_getItem_preserved ops (c.setItem k v) k v
    (by rw [Cache.capacity_setItem]; exact hC)
    (Cache.keys_nodup_setItem c hnd k v)
    (by rw [Cache.capacity_setItem]; exact Cache.setItem_length_le c k v hC hlen)
    hself hput hmem

/-- Witness for C4: after `put(1, 5)` on an empty cache of capacity 2,
`get(1)` returns 5, and still does after a further `put(2, 9)`. -/
theorem cache_get_after_put_witness :
    ((Cache.mk 2 [] : Cache Nat Nat).setItem 1 5).getItem 1 = some 5 ∧
    (((Cache.mk 2 [] : Cache Nat Nat).setItem 1 5).run [CacheOp.put 2 9]).getItem 1
      = some 5 := by
  have h := cache_get_after_put (Cache.mk 2 []) (by decide) (by decide) (by decide) 1 5
  refine ⟨h.1, h.2 [CacheOp.put 2 9] ?_ (by decide)⟩
  intro w hw
  rw [List.mem_singleton] at hw
  simp at hw

/-- Counterexample for C5: a cache constructed with the non-positive
capacity -1 is accepted (the constructor performs no validation and the
program defines no CacheInvariantViolation error), and after a single put
the size is 1, which exceeds the capacity — so neither is construction
rejected nor is the size bound enforced. -/
theorem cache_negcap_counterexample :
    (Cache.init Nat Nat (-1)).capacity ≤ 0 ∧
    ((Cache.init Nat Nat (-1)).setItem 0 0).size = 1 ∧
    ¬ ((((Cache.init Nat Nat (-1)).setItem 0 0).size : Int)
        ≤ (Cache.init Nat Nat (-1)).capacity) := by
  refine ⟨by decide, rfl, by decide⟩

/-- C5 amended: creating or operating a cache with non-positive capacity is
not rejected; with capacity at most -1 the bulk-eviction count
`capacity // 2 + 1` is non-positive, so no entry is ever evicted and after
any put the size (at least 1) strictly exceeds the capacity. -/
theorem cache_negative_capacity_not_rejected (c : Cache Nat Nat)
    (h : c.capacity ≤ -1) (k v : Nat) :
    1 ≤ (c.setItem k v).size ∧ ¬ (((c.setItem k v).size : Int) ≤ c.capacity) := by
  obtain ⟨cap, store⟩ := c
  have h1 : cap ≤ -1 := h
  cases cap with
  | ofNat m =>
    exfalso
    have h2 : ((m : Int)) ≤ -1 := h1
    omega
  | negSucc m =>
    have hev : evictOverflow (Int.negSucc m) (removeKey store k ++ [(k, v)])
        = removeKey store k ++ [(k, v)] := by
      unfold evictOverflow
      split
      · rw [evictCount_negSucc, List.drop_zero]
      · rfl
    have hsz : ((Cache.mk (Int.negSucc m) store : Cache Nat Nat).setItem k v).size
        = (removeKey store k).length + 1 := by
      show (evictOverflow (Int.negSucc m) (removeKey store k ++ [(k, v)])).length
        = (removeKey store k).length + 1
      rw [hev, List.length_append]
      simp
    constructor
    · rw [hsz]
      omega
    · show ¬ ((((Cache.mk (Int.negSucc m) store : Cache Nat Nat).setItem k v).size : Int)
        ≤ Int.negSucc m)
      rw [hsz, Int.negSucc_eq]
      intro hc
      omega

/-- Witness for the amended C5 at capacity -1 on the empty cache with a
put of key 0. -/
theorem cache_negative_capacity_not_rejected_witness :
    1 ≤ ((Cache.mk (-1) [] : Cache Nat Nat).setItem 0 0).size ∧
    ¬ ((((Cache.mk (-1) [] : Cache Nat Nat).setItem 0 0).size : Int)
        ≤ (Cache.mk (-1) [] : Cache Nat Nat).capacity) :=
  cache_negative_capacity_not_rejected (Cache.mk (-1) []) (by decide) 0 0

/-! Embedding of the parts of `Client.__init__` (src/i.py) that the claims
are about: credential fallback, storage selection, worker pool and
semaphore set-up.  Python optional arguments become `Option`; Python
truthiness of each optional type is made explicit. -/

/-- Truthiness of an optional Python string: `None` and `""` are falsy. -/
def truthyStr : Option String → Bool
  | none => false
  | some s => s != ""

/-- Truthiness of an optional Python bool: `None` is falsy. -/
def truthyBool : Option Bool → Bool
  | none => false
  | some b => b

/-- Truthiness of an optional Python dict (modelled as a key-value list):
`None` and the empty dict are falsy. -/
def truthyDict : Option (List (String × String)) → Bool
  | none => false
  | some l => !l.isEmpty

/-- Truthiness of an optional Python int: `None` and `0` are falsy. -/
def truthyInt : Option Int → Bool
  | none => false
  | some n => n != 0

/-- Class attribute `WORKERS = min(32, (os.cpu_count() or 0) + 4)`;
`os.cpu_count()` may return `None`, modelled by `Option Nat` (`x or 0`
yields 0 both for `None` and for a returned 0, matching `getD 0`). -/
def Client.WORKERS (cpuCount : Option Nat) : Nat :=
  min 32 (cpuCount.getD 0 + 4)

/-- Class attribute `MAX_CONCURRENT_TRANSMISSIONS = 1`. -/
def Client.MAX_CONCURRENT_TRANSMISSIONS : Nat := 1

/-- Class attribute `MAX_CACHE_SIZE = 10000`. -/
def Client.MAX_CACHE_SIZE : Int := 10000

/-- Which storage backend the constructor selects. -/
inductive StorageKind where
  | explicitStorage
  | memorySession
  | memoryNamed
  | mongo
  | file
deriving DecidableEq

/-- The constructor arguments of `Client.__init__` relevant to the claims,
with the source's defaults.  `storage : Option Unit` models presence of an
explicit `Storage` object (objects are truthy).  The Python default for
`workers` is the class attribute `WORKERS`, computed from the machine's
CPU count at import time; theorems quantify over the count. -/
structure ClientConfig where
  name : String
  api_id : Option Int := none
  api_hash : Option String := none
  bot_token : Option String := none
  session_string : Option String := none
  in_memory : Option Bool := none
  mongodb : Option (List (String × String)) := none
  storage : Option Unit := none
  workers : Nat := Client.WORKERS none
  max_concurrent_transmissions : Nat := Client.MAX_CONCURRENT_TRANSMISSIONS
  max_message_cache_size : Int := Client.MAX_CACHE_SIZE
  max_business_user_connection_cache_size : Int := Client.MAX_CACHE_SIZE

/-- The attributes set by `Client.__init__` that the claims observe.  The
two semaphores are modelled by their initial counts, the
`ThreadPoolExecutor` by its worker bound, and the two caches by their
configured capacities. -/
structure ClientState where
  api_id : Option Int
  api_hash : Option String
  workers : Nat
  executorWorkers : Nat
  storage : StorageKind
  mongoWarning : Bool
  save_file_semaphore : Nat
  get_file_semaphore : Nat
  message_cache_capacity : Int
  business_cache_capacity : Int

/-- The storage-selection chain of `Client.__init__`:
`if storage: ... elif self.session_string: MemoryStorage(name, s) elif
self.in_memory: MemoryStorage(name) elif self.mongodb: (warn and fall back
to MemoryStorage(name) when pymongo is unavailable, else MongoStorage)
else FileStorage`.  The boolean in the result records whether the
pymongo-missing warning was logged. -/
def selectStorage (mongoAvail : Bool) (cfg : ClientConfig) : StorageKind × Bool :=
  if cfg.storage.isSome then (StorageKind.explicitStorage, false)
  else if truthyStr cfg.session_string then (StorageKind.memorySession, false)
  else if truthyBool cfg.in_memory then (StorageKind.memoryNamed, false)
  else if truthyDict cfg.mongodb then
    (if !mongoAvail then (StorageKind.memoryNamed, true) else (StorageKind.mongo, false))
  else (StorageKind.file, false)

/-- `Client.__init__`: `self.api_id = int(api_id) if api_id else None`,
then the bot-token fallback
`if bot_token and (self.api_id is None or self.api_hash is None):` sets
both placeholders; storage selection; `ThreadPoolExecutor(self.workers)`;
the two `asyncio.Semaphore(self.max_concurrent_transmissions)`; and the
two `Cache` capacities.  The whole constructor is total — no path raises. -/
def Client.init (mongoAvail : Bool) (cfg : ClientConfig) : ClientState :=
  let api_id0 : Option Int := if truthyInt cfg.api_id then cfg.api_id else none
  let creds : Option Int × Option String :=
    if truthyStr cfg.bot_token && (api_id0.isNone || cfg.api_hash.isNone) then
      (some 123456, some ("0123456789abcdef0123456789abcdef"))
    else (api_id0, cfg.api_hash)
  let st := selectStorage mongoAvail cfg
  { api_id := creds.1
    api_hash := creds.2
    workers := cfg.workers
    executorWorkers := cfg.workers
    storage := st.1
    mongoWarning := st.2
    save_file_semaphore := cfg.max_concurrent_transmissions
    get_file_semaphore := cfg.max_concurrent_transmissions
    message_cache_capacity := cfg.max_message_cache_size
    business_cache_capacity := cfg.max_business_user_connection_cache_size }

/-- C6: with a truthy mongodb configuration, pymongo unavailable, and no
explicit storage, session string or in-memory flag taking precedence,
construction still succeeds (the embedding is a total function evaluated
here) and selects the in-memory backend while logging the warning. -/
theorem client_mongo_fallback (cfg : ClientConfig)
    (h1 : cfg.storage = none) (h2 : truthyStr cfg.session_string = false)
    (h3 : truthyBool cfg.in_memory = false) (h4 : truthyDict cfg.mongodb = true) :
    (Client.init false cfg).storage = StorageKind.memoryNamed ∧
    (Client.init false cfg).mongoWarning = true := by
  constructor <;> simp [Client.init, selectStorage, h1, h2, h3, h4]

/-- Concrete configuration: a one-entry mongodb dict and nothing else. -/
def cfgMongoOnly : ClientConfig := { name := ("a"), mongodb := some [(("u"), ("m"))] }

/-- Witness for C6 with a concrete one-entry mongodb dict. -/
theorem client_mongo_fallback_witness :
    (Client.init false cfgMongoOnly).storage = StorageKind.memoryNamed ∧
    (Client.init false cfgMongoOnly).mongoWarning = true :=
  client_mongo_fallback cfgMongoOnly rfl rfl rfl rfl

/-- C7: construction creates two separately held semaphores, one for
`save_file` and one for `get_file`, each initialised to the configured
`max_concurrent_transmissions`, whose class-level default is 1. -/
theorem client_semaphores (mongoAvail : Bool) (cfg : ClientConfig) :
    (Client.init mongoAvail cfg).save_file_semaphore = cfg.max_concurrent_transmissions ∧
    (Client.init mongoAvail cfg).get_file_semaphore = cfg.max_concurrent_transmissions ∧
    Client.MAX_CONCURRENT_TRANSMISSIONS = 1 :=
  ⟨rfl, rfl, rfl⟩

/-- C8: the handler worker pool is created with exactly the configured
worker count, and the default worker count is `min(32, cpu_count + 4)`
with an unavailable CPU count treated as 0. -/
theorem client_worker_pool (mongoAvail : Bool) (cfg : ClientConfig)
    (cpuCount : Option Nat) :
    (Client.init mongoAvail cfg).executorWorkers = cfg.workers ∧
    Client.WORKERS cpuCount = min 32 (cpuCount.getD 0 + 4) ∧
    (Client.init mongoAvail
      { cfg with workers := Client.WORKERS cpuCount }).executorWorkers
        = min 32 (cpuCount.getD 0 + 4) :=
  ⟨rfl, rfl, rfl⟩

/-- Concrete configuration: bot token, `api_id = 5`, empty-string api_hash. -/
def cfgBotEmptyHash : ClientConfig := { name := ("a"), api_id := some 5, api_hash := some (""), bot_token := some ("t") }

/-- Counterexample for C10: with a truthy bot token, `api_id = 5` present
and `api_hash` the empty string (which the claim counts as missing), the
constructor performs no substitution — `api_hash` stays `""` and `api_id`
stays 5, because the code tests `self.api_hash is None`, not emptiness. -/
theorem client_placeholder_counterexample :
    (Client.init true cfgBotEmptyHash).api_hash = some ("") ∧
    (Client.init true cfgBotEmptyHash).api_id = some 5 ∧
    some ("") ≠ some ("0123456789abcdef0123456789abcdef") := by
  refine ⟨by decide, by decide, by decide⟩

/-- C10 amended: the substitution happens exactly when `bot_token` is
truthy and (`api_id` is falsy — `None`, 0 or empty, making the stored id
`None` — or `api_hash` is literally `None`); an empty-string `api_hash`
does not count.  Then both placeholders are installed. -/
theorem client_placeholder_credentials (mongoAvail : Bool) (cfg : ClientConfig)
    (hb : truthyStr cfg.bot_token = true)
    (hmiss : truthyInt cfg.api_id = false ∨ cfg.api_hash = none) :
    (Client.init mongoAvail cfg).api_id = some 123456 ∧
    (Client.init mongoAvail cfg).api_hash
      = some ("0123456789abcdef0123456789abcdef") := by
  have hcond : (truthyStr cfg.bot_token &&
      ((if truthyInt cfg.api_id then cfg.api_id else none).isNone
        || cfg.api_hash.isNone)) = true := by
    rw [hb]
    rcases hmiss with h | h
    · rw [h]
      simp
    · rw [h]
      simp
  constructor <;> simp [Client.init, hcond]

/-- Concrete configuration: a bot token and nothing else. -/
def cfgBotOnly : ClientConfig := { name := ("a"), bot_token := some ("t") }

/-- Witness for the amended C10: bot token present, no api_id and no
api_hash — both placeholders are installed. -/
theorem client_placeholder_credentials_witness :
    (Client.init true cfgBotOnly).api_id = some 123456 ∧
    (Client.init true cfgBotOnly).api_hash
        = some ("0123456789abcdef0123456789abcdef") :=
  client_placeholder_credentials true cfgBotOnly rfl (Or.inr rfl)

end Spec2Proof
